import Mathlib

/-!
Verification of the `gent` HTTP client wrapper (github.com/Soreing/gent).

This development gives a shallow embedding of the allocation-efficient
endpoint construction machinery (memory pool, paged buffer, pooled writer,
endpoint formatter), of the retrier decision function, and of the prepare
pipeline stage, together with proofs or refutations of the specified
properties.

Modelling conventions:
* a Go byte is a `Nat` (values below 256 where it matters);
* a Go byte slice is a `Slice`: a capacity together with the stored bytes
  (`data.length` plays the role of `len`, `cap` the role of `cap`);
* Go's `append` is `goAppend`; when the appended data exceeds the capacity
  Go reallocates with an implementation-defined growth policy, modelled
  here as exact fit.  All appends performed by the embedded code stay
  within capacity whenever the configured page size is positive, so the
  growth policy is never observable in the theorems below;
* the memory pool used by the writer hands out empty pages of the
  configured page size (`MemPool.Acquire` on a pool satisfying the pool
  invariant, proved separately); since the identity of page backing arrays
  is unobservable in the formatted output, the writer model acquires a
  fresh empty page of capacity `ps` at each `Acquire` call site;
* Go maps iterated with `range` are association lists: quantifying over
  the list quantifies over every possible (unspecified) iteration order;
* errors created with `fmt.Errorf` are their message strings.
-/

/-- A Go byte slice: a backing capacity and the stored bytes. -/
structure Slice where
  cap : Nat
  data : List Nat
deriving Repr, DecidableEq

/-- Go's `append`.  If the result fits the capacity the backing array is
reused; otherwise Go reallocates (growth policy abstracted as exact fit;
unreachable in the embedded code when the page size is positive). -/
def goAppend (s : Slice) (xs : List Nat) : Slice :=
  if s.data.length + xs.length ≤ s.cap then ⟨s.cap, s.data ++ xs⟩
  else ⟨s.data.length + xs.length, s.data ++ xs⟩

/-- The empty (`nil`) slice. -/
def nilSlice : Slice := ⟨0, []⟩

@[simp] theorem goAppend_data (s : Slice) (xs : List Nat) :
    (goAppend s xs).data = s.data ++ xs := by
  unfold goAppend; split <;> rfl

/-- `buffer` (src/buffer.go): a current page, the retired pages, and the
byte count of the retired pages. -/
structure buffer where
  page : Slice
  store : List Slice
  bytes : Nat
deriving Repr, DecidableEq

/-- `newBuffer` (src/buffer.go lines 12-17). -/
def newBuffer (page : Slice) : buffer :=
  { page := page, store := [], bytes := 0 }

/-- `buffer.add` (src/buffer.go lines 40-44): retire the current page into
the store, add its length to the byte count, adopt the new page. -/
def buffer.add (b : buffer) (buf : Slice) : buffer :=
  { page := buf, store := b.store ++ [b.page], bytes := b.bytes + b.page.data.length }

/-- `buffer.len` (src/buffer.go lines 47-49). -/
def buffer.len (b : buffer) : Nat :=
  b.bytes + b.page.data.length

/-- `buffer.build` (src/buffer.go lines 22-36): reuse `buf` when its spare
capacity suffices, else allocate an exact-size destination; then append the
retired pages in order followed by the current page. -/
def buffer.build (b : buffer) (buf : Slice) : Slice :=
  let size := b.bytes + b.page.data.length
  let res := if size ≤ buf.cap - buf.data.length then buf else ⟨size, []⟩
  goAppend (b.store.foldl (fun r p => goAppend r p.data) res) b.page.data

/-- The bytes logically held by a buffer: retired pages in order, then the
current page (specification-side helper). -/
def buffer.contents (b : buffer) : List Nat :=
  (b.store.map Slice.data).foldr (· ++ ·) [] ++ b.page.data

@[simp] theorem buffer.contents_newBuffer (p : Slice) :
    (newBuffer p).contents = p.data := by
  simp [newBuffer, buffer.contents]

theorem foldr_append_init (l : List (List Nat)) (init : List Nat) :
    l.foldr (· ++ ·) init = l.foldr (· ++ ·) [] ++ init := by
  induction l with
  | nil => simp
  | cons x t ih => simp [ih, List.append_assoc]

@[simp] theorem buffer.contents_add (b : buffer) (p : Slice) :
    (b.add p).contents = b.contents ++ p.data := by
  simp [buffer.add, buffer.contents, List.foldr_append]
  rw [foldr_append_init]
  simp [List.append_assoc]

theorem buffer.contents_set_page (b : buffer) (p : Slice) :
    ({ b with page := p } : buffer).contents = (b.store.map Slice.data).foldr (· ++ ·) [] ++ p.data := by
  simp [buffer.contents]

@[simp] theorem buffer.contents_page_append (b : buffer) (xs : List Nat) :
    ({ b with page := goAppend b.page xs } : buffer).contents = b.contents ++ xs := by
  simp [buffer.contents, List.append_assoc]

theorem foldl_goAppend_data (l : List Slice) (r : Slice) :
    (l.foldl (fun r p => goAppend r p.data) r).data
      = r.data ++ (l.map Slice.data).foldr (· ++ ·) [] := by
  induction l generalizing r with
  | nil => simp
  | cons p t ih => simp [ih, List.append_assoc]

/-- The result bytes of `build` are the destination's existing bytes (when
the destination is reused) followed by the buffer contents. -/
theorem buffer.build_data (b : buffer) (buf : Slice) :
    (b.build buf).data
      = (if b.len ≤ buf.cap - buf.data.length then buf.data else []) ++ b.contents := by
  unfold buffer.build buffer.len
  split_ifs with h <;> simp [h, foldl_goAppend_data, buffer.contents, List.append_assoc]

@[simp] theorem buffer.build_nil_data (b : buffer) :
    (b.build nilSlice).data = b.contents := by
  rw [buffer.build_data]
  split <;> simp [nilSlice]

/-- `MemPool` (src/mempool.go): a bounded pool of reusable pages.  The Go
channel of capacity `poolCap` is modelled as a FIFO list. -/
structure MemPool where
  pageSize : Nat
  poolCap : Nat
  pool : List Slice
deriving Repr, DecidableEq

/-- `NewMemPool` (src/mempool.go lines 23-31): empty channel of capacity
`poolSize`, pages of size `pageSize`. -/
def NewMemPool (pageSize poolSize : Nat) : MemPool :=
  { pageSize := pageSize, poolCap := poolSize, pool := [] }

/-- `MemPool.Acquire` (src/mempool.go lines 35-42): take a page from the
pool if one is ready, else allocate `make([]byte, 0, pageSize)`. -/
def MemPool.Acquire (m : MemPool) : Slice × MemPool :=
  match m.pool with
  | p :: rest => (p, { m with pool := rest })
  | [] => (⟨m.pageSize, []⟩, m)

/-- `MemPool.Release` (src/mempool.go lines 46-53): truncate each page to
length zero (`mem[i][:0]`, capacity kept) and offer it to the pool,
discarding it when the channel is full. -/
def MemPool.Release (m : MemPool) (mems : List Slice) : MemPool :=
  mems.foldl
    (fun m p =>
      if m.pool.length < m.poolCap then { m with pool := m.pool ++ [⟨p.cap, []⟩] } else m)
    m

/-- One client interaction with the pool: an `Acquire` (result discarded
for the state evolution) or a `Release` of a batch of pages. -/
inductive PoolCmd where
  | acq : PoolCmd
  | rel : List Slice → PoolCmd
deriving Repr, DecidableEq

/-- Run a sequence of pool interactions. -/
def runPool (m : MemPool) : List PoolCmd → MemPool
  | [] => m
  | PoolCmd.acq :: cs => runPool (m.Acquire).2 cs
  | PoolCmd.rel ps :: cs => runPool (m.Release ps) cs

/-- The pool invariant: occupancy bounded by the configured capacity, and
every pooled page empty with the configured page capacity. -/
def PoolInv (m : MemPool) : Prop :=
  m.pool.length ≤ m.poolCap ∧ ∀ p ∈ m.pool, p.data = [] ∧ p.cap = m.pageSize

/-- Modelled from the spec: `shouldEscape` is referenced by `writeEscaped`
(src/unnamed/part_001 line 59) and exercised by its tests
(src/unnamed/part_007) but its definition is not under src/.  Per spec
section 4.3 a byte needs escaping exactly when it is outside the RFC 3986
unreserved set `[A-Za-z0-9-_.~]`. -/
def shouldEscape (b : Nat) : Bool :=
  !((65 ≤ b && b ≤ 90) || (97 ≤ b && b ≤ 122) || (48 ≤ b && b ≤ 57) ||
    b == 45 || b == 95 || b == 46 || b == 126)

/-- Uppercase hexadecimal digit of a value below 16. -/
def hexDigit (n : Nat) : Nat :=
  if n < 10 then 48 + n else 55 + n

/-- Modelled from the spec: `escape` is referenced by `writeEscaped`
(src/unnamed/part_001 line 61) and exercised by its tests
(src/unnamed/part_007) but its definition is not under src/.  Per spec
section 4.3 it is the 3-character uppercase-hex percent-escape `%XX`. -/
def escape (b : Nat) : List Nat :=
  [37, hexDigit (b / 16), hexDigit (b % 16)]

/-- Byte-wise percent-escaping of a whole string: unreserved bytes kept,
all other bytes replaced by their `%XX` escape (specification-side). -/
def escapeAll : List Nat → List Nat
  | [] => []
  | b :: t => (if shouldEscape b then escape b else [b]) ++ escapeAll t

/-- `writer.writeByte` (src/unnamed/part_001 lines 20-29).  `ps` is the
pool's page size; acquiring from the pool yields an empty page of that
capacity. -/
def writeByte (ps : Nat) (b : buffer) (byt : Nat) : buffer :=
  if b.page.data.length < b.page.cap then { b with page := goAppend b.page [byt] }
  else b.add (goAppend ⟨ps, []⟩ [byt])

/-- The page-filling loop of `writer.writeString` (src/unnamed/part_001
lines 40-51), with an explicit fuel bound on the iteration count.  Each Go
iteration acquires a fresh page (capacity `ps`), advances `end` by that
capacity clipped to the string length, copies `str[beg:end]` into the page
and retires it.  When `ps` is positive each iteration advances `beg` by at
least one, so `str.length` units of fuel make the model agree with Go; the
Go loop does not terminate when `ps = 0`. -/
def wsLoop (ps : Nat) (str : List Nat) : buffer → Nat → Nat → buffer
  | b, _, 0 => b
  | b, beg, fuel + 1 =>
    if beg < str.length then
      let e := min (beg + ps) str.length
      let newb := goAppend ⟨ps, []⟩ ((str.drop beg).take (e - beg))
      wsLoop ps str (b.add newb) e fuel
    else b

/-- `writer.writeString` (src/unnamed/part_001 lines 32-53): fill the
remaining space of the current page, then spill the rest into fresh pages. -/
def writeString (ps : Nat) (b : buffer) (str : List Nat) : buffer :=
  if str.length ≤ b.page.cap - b.page.data.length then { b with page := goAppend b.page str }
  else
    wsLoop ps str { b with page := goAppend b.page (str.take (b.page.cap - b.page.data.length)) }
      (b.page.cap - b.page.data.length) str.length

/-- The scan loop of `writer.writeEscaped` (src/unnamed/part_001 lines
57-65): `beg` marks the start of the current run of unreserved bytes, `e`
is the scan position (`end` in Go).  The loop advances `e` by one per
iteration, so `str.length - e` units of fuel reproduce the Go loop
exactly; on exit (and when the fuel runs out, which a sufficient initial
fuel makes coincide with exit) the trailing safe run is flushed. -/
def weLoop (ps : Nat) (str : List Nat) : buffer → Nat → Nat → Nat → buffer
  | b, beg, e, 0 => writeString ps b ((str.drop beg).take (e - beg))
  | b, beg, e, fuel + 1 =>
    if e < str.length then
      if shouldEscape (str.getD e 0) then
        weLoop ps str
          (writeString ps (writeString ps b ((str.drop beg).take (e - beg)))
            (escape (str.getD e 0)))
          (e + 1) (e + 1) fuel
      else weLoop ps str b beg (e + 1) fuel
    else writeString ps b ((str.drop beg).take (e - beg))

/-- `writer.writeEscaped` (src/unnamed/part_001 lines 56-67). -/
def writeEscaped (ps : Nat) (b : buffer) (str : List Nat) : buffer :=
  weLoop ps str b 0 0 str.length

theorem wsLoop_contents (ps : Nat) (str : List Nat) (b : buffer) (beg fuel : Nat)
    (hps : 0 < ps) (hbeg : beg ≤ str.length) (hfuel : str.length - beg ≤ fuel) :
    (wsLoop ps str b beg fuel).contents = b.contents ++ str.drop beg := by
  induction fuel generalizing b beg with
  | zero =>
    have : beg = str.length := by omega
    simp [wsLoop, this]
  | succ n ih =>
    by_cases h : beg < str.length
    · rw [wsLoop]
      simp only [h, if_true]
      rw [ih _ _ (by omega) (by omega)]
      simp only [buffer.contents_add, goAppend_data, List.nil_append, List.append_assoc]
      congr 1
      obtain ⟨k, hk⟩ : ∃ k, (beg + ps) ⊓ str.length = beg + k :=
        ⟨(beg + ps) ⊓ str.length - beg, by omega⟩
      rw [hk, Nat.add_sub_cancel_left, ← List.drop_drop]
      exact List.take_append_drop _ _
    · have : beg = str.length := by omega
      simp [wsLoop, h, this]

@[simp] theorem writeByte_contents (ps : Nat) (b : buffer) (byt : Nat) :
    (writeByte ps b byt).contents = b.contents ++ [byt] := by
  unfold writeByte
  split
  · exact buffer.contents_page_append b [byt]
  · simp

theorem writeString_contents (ps : Nat) (b : buffer) (str : List Nat) (hps : 0 < ps) :
    (writeString ps b str).contents = b.contents ++ str := by
  unfold writeString
  split
  · exact buffer.contents_page_append b str
  · rename_i h
    rw [wsLoop_contents ps str _ _ _ hps (by omega) (by omega)]
    rw [buffer.contents_page_append]
    simp [List.append_assoc]

theorem drop_getD_cons (str : List Nat) (e : Nat) (h : e < str.length) :
    str.drop e = str.getD e 0 :: str.drop (e + 1) := by
  rw [List.drop_eq_getElem_cons h, List.getD_eq_getElem str 0 h]

theorem take_succ_getD (l : List Nat) (k : Nat) (h : k < l.length) :
    l.take (k + 1) = l.take k ++ [l.getD k 0] := by
  rw [List.take_succ, List.getD_eq_getElem l 0 h]
  simp [List.getElem?_eq_getElem h]

theorem weLoop_contents (ps : Nat) (str : List Nat) (hps : 0 < ps) :
    ∀ n b beg e, str.length - e ≤ n → beg ≤ e → e ≤ str.length →
      (∀ i, beg ≤ i → i < e → ¬ shouldEscape (str.getD i 0)) →
      (weLoop ps str b beg e n).contents
        = b.contents ++ (str.drop beg).take (e - beg) ++ escapeAll (str.drop e) := by
  intro n
  induction n with
  | zero =>
    intro b beg e h1 h2 h3 hsafe
    have he : e = str.length := by omega
    rw [weLoop]
    rw [writeString_contents _ _ _ hps]
    simp [he, escapeAll, List.append_assoc]
  | succ n ih =>
    intro b beg e h1 h2 h3 hsafe
    by_cases hlt : e < str.length
    · rw [weLoop]
      simp only [hlt, if_true]
      by_cases hesc : shouldEscape (str.getD e 0)
      · simp only [hesc, if_true]
        rw [ih _ _ _ (by omega) (le_refl _) (by omega) (fun i hi1 hi2 => by omega)]
        rw [writeString_contents _ _ _ hps, writeString_contents _ _ _ hps]
        rw [drop_getD_cons str e hlt]
        simp only [escapeAll, hesc, if_true, Nat.sub_self, List.take_zero,
          List.append_assoc, List.append_nil, List.nil_append]
      · rw [if_neg hesc]
        rw [ih _ _ _ (by omega) (by omega) (by omega)
          (fun i hi1 hi2 => by
            rcases Nat.lt_or_ge i e with h | h
            · exact hsafe i hi1 h
            · have : i = e := by omega
              rw [this]; exact hesc)]
        rw [drop_getD_cons str e hlt]
        have hidx : e - beg < (str.drop beg).length := by
          simp [List.length_drop]; omega
        have : e + 1 - beg = (e - beg) + 1 := by omega
        rw [this, take_succ_getD _ _ hidx]
        have hget : (str.drop beg).getD (e - beg) 0 = str.getD e 0 := by
          rw [List.getD_eq_getElem _ 0 hidx, List.getElem_drop]
          rw [List.getD_eq_getElem str 0 (by omega)]
          congr 1
          omega
        simp only [escapeAll, hesc, Bool.false_eq_true, if_false, hget, List.append_assoc,
          List.singleton_append, List.cons_append, List.nil_append]
    · have he : e = str.length := by omega
      rw [weLoop]
      simp only [he, lt_irrefl, if_false]
      rw [writeString_contents _ _ _ hps]
      simp [he, escapeAll, List.append_assoc]

theorem writeEscaped_contents (ps : Nat) (b : buffer) (str : List Nat) (hps : 0 < ps) :
    (writeEscaped ps b str).contents = b.contents ++ escapeAll str := by
  unfold writeEscaped
  rw [weLoop_contents ps str hps (str.length) b 0 0 (by omega) (le_refl _) (Nat.zero_le _)
    (fun i hi1 hi2 => by omega)]
  simp

/-- Error text of src/request.go line 186. -/
def illegalFormatErr : String := "illegal character/Invalid format in url"

/-- Error text of src/request.go line 188. -/
def notEnoughErr : String := "not enough parameters provided"

/-- Error text of src/request.go line 202. -/
def tooManyErr : String := "too many parameters provided"

/-- The template scan loop of `fmtEndpoint` (src/request.go lines 183-199,
identical in src/unnamed/part_004 lines 187-203).  `buf` is the writer's
buffer, `lst`/`cur` the cut point and scan position, `pathIdx` the path
parameter cursor.  Byte 123 is `{`, byte 125 is `}`.  On success it
returns the buffer together with the final `lst` and `pathIdx` (the final
`cur` is `format.length`). -/
def feLoop (ps : Nat) (format : List Nat) (pathPrm : List (List Nat)) :
    buffer → Nat → Nat → Nat → Except String (buffer × Nat × Nat) :=
  fun buf lst cur pathIdx =>
  if h : cur < format.length then
    if format.getD cur 0 = 123 then
      if cur + 1 = format.length ∨ ¬ format.getD (cur + 1) 0 = 125 then
        Except.error illegalFormatErr
      else if pathPrm.length ≤ pathIdx then
        Except.error notEnoughErr
      else
        feLoop ps format pathPrm
          (writeEscaped ps (writeString ps buf ((format.drop lst).take (cur - lst)))
            (pathPrm.getD pathIdx []))
          (cur + 2) (cur + 2) (pathIdx + 1)
    else feLoop ps format pathPrm buf lst (cur + 1) pathIdx
  else Except.ok (buf, lst, pathIdx)
termination_by _ _ cur _ => format.length - cur
decreasing_by
  · omega
  · omega

/-- The query-parameter loop body of src/request.go's `fmtEndpoint` (lines
211-221): one key's value list, threading the `first` flag.  Byte 38 is
`&`, byte 61 is `=`. -/
def qInner (ps : Nat) (k : List Nat) (vs : List (List Nat)) (s : buffer × Bool) :
    buffer × Bool :=
  vs.foldl
    (fun s v =>
      let b := if s.2 then s.1 else writeByte ps s.1 38
      (writeEscaped ps (writeByte ps (writeEscaped ps b k) 61) v, false))
    s

/-- The query-parameter loop of src/request.go's `fmtEndpoint` (lines
210-221) over the map's iteration sequence. -/
def qLoop (ps : Nat) (q : List (List Nat × List (List Nat))) (s : buffer × Bool) :
    buffer × Bool :=
  q.foldl (fun s kv => qInner ps kv.1 kv.2 s) s

/-- `Request.fmtEndpoint` (src/request.go lines 172-225): scan the template
filling `{}` placeholders with escaped path parameters, check the parameter
count, append the trailing text, then append the escaped query parameters
separated by `&` (`first` flag variant), and build the result from the
buffer.  `ps` is the page size of the request's memory pool; byte 63 is
`?`. -/
def fmtEndpoint (ps : Nat) (format : List Nat)
    (queryPrm : List (List Nat × List (List Nat))) (pathPrm : List (List Nat)) :
    Except String (List Nat) :=
  match feLoop ps format pathPrm (newBuffer ⟨ps, []⟩) 0 0 0 with
  | Except.error e => Except.error e
  | Except.ok (buf, lst, pathIdx) =>
    if ¬ pathIdx = pathPrm.length then Except.error tooManyErr
    else
      let buf := if lst < format.length then
          writeString ps buf ((format.drop lst).take (format.length - lst))
        else buf
      let buf := if 0 < queryPrm.length then (qLoop ps queryPrm (writeByte ps buf 63, true)).1
        else buf
      Except.ok (buf.build nilSlice).data

/-- The query-parameter loop body of src/unnamed/part_004's `fmtEndpoint`
(lines 215-224): instead of a `first` flag, `&` is written whenever the
current page holds more than `begIdx` bytes, where `begIdx` is the total
buffer length recorded just after the `?` was written. -/
def qInnerP4 (ps begIdx : Nat) (k : List Nat) (vs : List (List Nat)) (b : buffer) : buffer :=
  vs.foldl
    (fun b v =>
      let b := if begIdx < b.page.data.length then writeByte ps b 38 else b
      writeEscaped ps (writeByte ps (writeEscaped ps b k) 61) v)
    b

/-- `Request.fmtEndpoint` as in src/unnamed/part_004 (lines 176-228): the
scan and parameter-count handling agree with src/request.go; the query
separator logic uses the `begIdx` watermark instead of a `first` flag. -/
def fmtEndpointP4 (ps : Nat) (format : List Nat)
    (queryPrm : List (List Nat × List (List Nat))) (pathPrm : List (List Nat)) :
    Except String (List Nat) :=
  match feLoop ps format pathPrm (newBuffer ⟨ps, []⟩) 0 0 0 with
  | Except.error e => Except.error e
  | Except.ok (buf, lst, pathIdx) =>
    if ¬ pathIdx = pathPrm.length then Except.error tooManyErr
    else
      let buf := if lst < format.length then
          writeString ps buf ((format.drop lst).take (format.length - lst))
        else buf
      let buf := if 0 < queryPrm.length then
          let buf := writeByte ps buf 63
          let begIdx := buf.len
          queryPrm.foldl (fun b kv => qInnerP4 ps begIdx kv.1 kv.2 b) buf
        else buf
      Except.ok (buf.build nilSlice).data

theorem dropD_cons {α : Type} (d : α) (l : List α) (e : Nat) (h : e < l.length) :
    l.drop e = l.getD e d :: l.drop (e + 1) := by
  rw [List.drop_eq_getElem_cons h, List.getD_eq_getElem l d h]

theorem getD_of_drop {α : Type} (d : α) (l : List α) (cur : Nat) (c : α) (t : List α)
    (h : l.drop cur = c :: t) : l.getD cur d = c ∧ cur < l.length ∧ l.drop (cur + 1) = t := by
  have hlt : cur < l.length := by
    by_contra h2
    rw [List.drop_eq_nil_of_le (by omega)] at h
    cases h
  have h2 := dropD_cons d l cur hlt
  rw [h] at h2
  exact ⟨(List.cons.injEq _ _ _ _ ▸ h2).1.symm, hlt, ((List.cons.injEq _ _ _ _ ▸ h2).2).symm⟩

theorem drop_of_drop_append {α : Type} (l : List α) (cur : Nat) (s t : List α)
    (h : l.drop cur = s ++ t) : l.drop (cur + s.length) = t := by
  have : l.drop (cur + s.length) = (l.drop cur).drop s.length := by
    rw [List.drop_drop]
  rw [this, h, List.drop_left]

/-- Scanning a run of non-`{` bytes advances `cur` without touching the
buffer, the cut point or the parameter cursor. -/
theorem feLoop_skip (ps : Nat) (format : List Nat) (prm : List (List Nat)) :
    ∀ (s : List Nat), 123 ∉ s → ∀ t buf lst cur pathIdx, format.drop cur = s ++ t →
      feLoop ps format prm buf lst cur pathIdx
        = feLoop ps format prm buf lst (cur + s.length) pathIdx := by
  intro s
  induction s with
  | nil => intro _ t buf lst cur pathIdx _; simp
  | cons c s2 ih =>
    intro hs t buf lst cur pathIdx h
    have hd : format.drop cur = c :: (s2 ++ t) := by simpa using h
    obtain ⟨hget, hlt, hdrop⟩ := getD_of_drop 0 format cur c (s2 ++ t) hd
    rw [feLoop, dif_pos hlt, if_neg (by rw [hget]; intro hc; exact hs (hc ▸ List.mem_cons_self c s2))]
    have harith : cur + (c :: s2).length = cur + 1 + s2.length := by
      simp only [List.length_cons]
      omega
    rw [harith, ih (fun hm => hs (List.mem_cons_of_mem c hm)) t buf lst (cur + 1) pathIdx hdrop]

/-- A remaining template with no `{` ends the scan successfully. -/
theorem feLoop_stop (ps : Nat) (format : List Nat) (prm : List (List Nat))
    (buf : buffer) (lst cur pathIdx : Nat) (h : 123 ∉ format.drop cur) :
    feLoop ps format prm buf lst cur pathIdx = Except.ok (buf, lst, pathIdx) := by
  rw [feLoop_skip ps format prm (format.drop cur) h [] buf lst cur pathIdx (by simp)]
  rw [feLoop, dif_neg]
  rw [List.length_drop]
  omega

/-- A `{}` placeholder with parameters left writes the pending run and the
escaped parameter and advances past the pair. -/
theorem feLoop_placeholder (ps : Nat) (format : List Nat) (prm : List (List Nat))
    (buf : buffer) (lst cur pathIdx : Nat) (t : List Nat)
    (h : format.drop cur = 123 :: 125 :: t) (hprm : pathIdx < prm.length) :
    feLoop ps format prm buf lst cur pathIdx
      = feLoop ps format prm
          (writeEscaped ps (writeString ps buf ((format.drop lst).take (cur - lst)))
            (prm.getD pathIdx []))
          (cur + 2) (cur + 2) (pathIdx + 1) := by
  obtain ⟨hget, hlt, hdrop⟩ := getD_of_drop 0 format cur 123 (125 :: t) h
  obtain ⟨hget2, hlt2, _⟩ := getD_of_drop 0 format (cur + 1) 125 t hdrop
  rw [feLoop, dif_pos hlt, if_pos hget]
  rw [if_neg (by push_neg; exact ⟨by omega, hget2⟩)]
  rw [if_neg (by omega)]

/-- A `{` at end of template, or followed by anything other than `}`,
yields the illegal-format error. -/
theorem feLoop_illegal (ps : Nat) (format : List Nat) (prm : List (List Nat))
    (buf : buffer) (lst cur pathIdx : Nat) (t : List Nat)
    (h : format.drop cur = 123 :: t) (ht : t = [] ∨ ¬ t.getD 0 0 = 125) :
    feLoop ps format prm buf lst cur pathIdx = Except.error illegalFormatErr := by
  obtain ⟨hget, hlt, hdrop⟩ := getD_of_drop 0 format cur 123 t h
  rw [feLoop, dif_pos hlt, if_pos hget, if_pos]
  rcases t with _ | ⟨c, t2⟩
  · left
    have hl := List.length_drop (cur + 1) format
    rw [hdrop] at hl
    simp at hl
    omega
  · right
    obtain ⟨hget2, _, _⟩ := getD_of_drop 0 format (cur + 1) c t2 hdrop
    rw [hget2]
    rcases ht with ht | ht
    · cases ht
    · simpa using ht

/-- A `{}` placeholder with the parameters exhausted yields the
not-enough-parameters error. -/
theorem feLoop_notEnough (ps : Nat) (format : List Nat) (prm : List (List Nat))
    (buf : buffer) (lst cur pathIdx : Nat) (t : List Nat)
    (h : format.drop cur = 123 :: 125 :: t) (hprm : prm.length ≤ pathIdx) :
    feLoop ps format prm buf lst cur pathIdx = Except.error notEnoughErr := by
  obtain ⟨hget, hlt, hdrop⟩ := getD_of_drop 0 format cur 123 (125 :: t) h
  obtain ⟨hget2, hlt2, _⟩ := getD_of_drop 0 format (cur + 1) 125 t hdrop
  rw [feLoop, dif_pos hlt, if_pos hget]
  rw [if_neg (by push_neg; exact ⟨by omega, hget2⟩)]
  rw [if_pos hprm]

/-- A template as scanned by `fmtEndpoint`: literal segments (free of `{`,
but `}` is an ordinary byte there) joined by `{}` placeholders. -/
def joinTmpl : List (List Nat) → List Nat
  | [] => []
  | [s] => s
  | s :: rest => s ++ 123 :: 125 :: joinTmpl rest

/-- The bytes produced for all segments and escaped parameters before the
final segment (specification-side). -/
def renderInit : List (List Nat) → List (List Nat) → List Nat
  | [_], _ => []
  | s :: rest, p :: ps => s ++ escapeAll p ++ renderInit rest ps
  | _, _ => []

/-- The full substitution result: segments interleaved, in order, with the
percent-escaped parameters (specification-side). -/
def renderPath : List (List Nat) → List (List Nat) → List Nat
  | [], _ => []
  | [s], _ => s
  | s :: _, [] => s
  | s :: rest, p :: ps => s ++ escapeAll p ++ renderPath rest ps

theorem getLastD_irrel {α : Type} (a b : α) (l : List α) (d e : α) :
    (a :: b :: l).getLastD d = (b :: l).getLastD e := by
  simp only [List.getLastD_cons]

theorem renderPath_eq_renderInit (segs prm : List (List Nat)) (hne : segs ≠ [])
    (hlen : segs.length ≤ prm.length + 1) :
    renderPath segs prm = renderInit segs prm ++ segs.getLastD [] := by
  induction segs generalizing prm with
  | nil => exact absurd rfl hne
  | cons s rest ih =>
    rcases rest with _ | ⟨s2, rest2⟩
    · cases prm <;> simp [renderPath, renderInit]
    · rcases prm with _ | ⟨p, prm2⟩
      · simp at hlen
      · have := ih prm2 (by simp) (by simp at hlen ⊢; omega)
        simp only [renderPath, renderInit, this, List.append_assoc]
        rw [getLastD_irrel s s2 rest2 [] ([] : List Nat)]

/-- The scan over a well-formed placeholder template: every placeholder is
filled in order and the final cut point marks the last segment. -/
theorem feLoop_scan_ok (ps : Nat) (format : List Nat) (prm : List (List Nat)) (hps : 0 < ps) :
    ∀ (segs : List (List Nat)) (buf : buffer) (cur pathIdx : Nat),
      (∀ s ∈ segs, 123 ∉ s) → segs ≠ [] →
      pathIdx + (segs.length - 1) ≤ prm.length →
      format.drop cur = joinTmpl segs →
      ∃ bufOut lstOut,
        feLoop ps format prm buf cur cur pathIdx
          = Except.ok (bufOut, lstOut, pathIdx + (segs.length - 1)) ∧
        bufOut.contents = buf.contents ++ renderInit segs (prm.drop pathIdx) ∧
        format.drop lstOut = segs.getLastD [] := by
  intro segs
  induction segs with
  | nil => intro buf cur pathIdx _ hne _ _; exact absurd rfl hne
  | cons s rest ih =>
    intro buf cur pathIdx hseg hne hbudget hdrop
    rcases rest with _ | ⟨s2, rest2⟩
    · refine ⟨buf, cur, ?_, ?_, ?_⟩
      · rw [feLoop_stop ps format prm buf cur cur pathIdx (by
          rw [hdrop, show joinTmpl [s] = s from rfl]
          exact hseg s (List.mem_cons_self s []))]
        simp
      · simp [renderInit]
      · rw [hdrop]; simp [joinTmpl, List.getLastD]
    · have hj : joinTmpl (s :: s2 :: rest2) = s ++ 123 :: 125 :: joinTmpl (s2 :: rest2) := rfl
      rw [hj] at hdrop
      have hs : 123 ∉ s := hseg s (List.mem_cons_self _ _)
      rw [feLoop_skip ps format prm s hs _ buf cur cur pathIdx hdrop]
      have hdrop2 : format.drop (cur + s.length) = 123 :: 125 :: joinTmpl (s2 :: rest2) :=
        drop_of_drop_append format cur s _ hdrop
      have hprm : pathIdx < prm.length := by
        simp only [List.length_cons] at hbudget
        omega
      rw [feLoop_placeholder ps format prm buf cur (cur + s.length) pathIdx _ hdrop2 hprm]
      have hslice : (format.drop cur).take (cur + s.length - cur) = s := by
        rw [hdrop]
        have : cur + s.length - cur = s.length := by omega
        rw [this, List.take_left]
      obtain ⟨bufOut, lstOut, h1, h2, h3⟩ := ih
        (writeEscaped ps (writeString ps buf ((format.drop cur).take (cur + s.length - cur)))
          (prm.getD pathIdx []))
        (cur + s.length + 2) (pathIdx + 1)
        (fun x hx => hseg x (List.mem_cons_of_mem s hx)) (by simp)
        (by simp only [List.length_cons] at hbudget ⊢; omega)
        (by
          have : format.drop (cur + s.length + 1) = 125 :: joinTmpl (s2 :: rest2) :=
            (getD_of_drop 0 format (cur + s.length) 123 _ hdrop2).2.2
          have h4 : format.drop (cur + s.length + 2) = joinTmpl (s2 :: rest2) :=
            (getD_of_drop 0 format (cur + s.length + 1) 125 _ this).2.2
          exact h4)
      refine ⟨bufOut, lstOut, ?_, ?_, ?_⟩
      · have harith2 : pathIdx + 1 + ((s2 :: rest2).length - 1)
            = pathIdx + ((s :: s2 :: rest2).length - 1) := by
          simp only [List.length_cons]
          omega
        rw [← harith2]
        exact h1
      · rw [h2, writeEscaped_contents _ _ _ hps, writeString_contents _ _ _ hps, hslice]
        have hdp : prm.drop pathIdx = prm.getD pathIdx [] :: prm.drop (pathIdx + 1) :=
          dropD_cons [] prm pathIdx hprm
        rw [hdp]
        simp [renderInit, List.append_assoc]
      · simpa [List.getLastD] using h3

/-- With more placeholders than remaining parameters, the scan stops with
the not-enough-parameters error at the first placeholder past the supply. -/
theorem feLoop_scan_notEnough (ps : Nat) (format : List Nat) (prm : List (List Nat)) :
    ∀ (segs : List (List Nat)) (buf : buffer) (cur pathIdx : Nat),
      (∀ s ∈ segs, 123 ∉ s) →
      pathIdx ≤ prm.length →
      prm.length < pathIdx + (segs.length - 1) →
      format.drop cur = joinTmpl segs →
      feLoop ps format prm buf cur cur pathIdx = Except.error notEnoughErr := by
  intro segs
  induction segs with
  | nil => intro buf cur pathIdx _ _ hover _; simp at hover; omega
  | cons s rest ih =>
    intro buf cur pathIdx hseg hle hover hdrop
    rcases rest with _ | ⟨s2, rest2⟩
    · simp at hover; omega
    · have hj : joinTmpl (s :: s2 :: rest2) = s ++ 123 :: 125 :: joinTmpl (s2 :: rest2) := rfl
      rw [hj] at hdrop
      have hs : 123 ∉ s := hseg s (List.mem_cons_self _ _)
      rw [feLoop_skip ps format prm s hs _ buf cur cur pathIdx hdrop]
      have hdrop2 : format.drop (cur + s.length) = 123 :: 125 :: joinTmpl (s2 :: rest2) :=
        drop_of_drop_append format cur s _ hdrop
      by_cases hfull : pathIdx < prm.length
      · rw [feLoop_placeholder ps format prm buf cur (cur + s.length) pathIdx _ hdrop2 hfull]
        have hdrop3 : format.drop (cur + s.length + 2) = joinTmpl (s2 :: rest2) := by
          have h5 : format.drop (cur + s.length + 1) = 125 :: joinTmpl (s2 :: rest2) :=
            (getD_of_drop 0 format (cur + s.length) 123 _ hdrop2).2.2
          exact (getD_of_drop 0 format (cur + s.length + 1) 125 _ h5).2.2
        exact ih _ (cur + s.length + 2) (pathIdx + 1)
          (fun x hx => hseg x (List.mem_cons_of_mem s hx)) (by omega)
          (by simp only [List.length_cons] at hover ⊢; omega) hdrop3
      · exact feLoop_notEnough ps format prm buf cur (cur + s.length) pathIdx _ hdrop2 (by omega)

/-- A stray `{` (not forming a `{}` pair) reached after a run of valid
placeholders with enough parameters yields the illegal-format error. -/
theorem feLoop_scan_illegal (ps : Nat) (format : List Nat) (prm : List (List Nat)) :
    ∀ (segs : List (List Nat)) (t : List Nat) (buf : buffer) (cur pathIdx : Nat),
      (∀ s ∈ segs, 123 ∉ s) → segs ≠ [] →
      pathIdx + (segs.length - 1) ≤ prm.length →
      (t = [] ∨ ¬ t.getD 0 0 = 125) →
      format.drop cur = joinTmpl segs ++ 123 :: t →
      feLoop ps format prm buf cur cur pathIdx = Except.error illegalFormatErr := by
  intro segs
  induction segs with
  | nil => intro t buf cur pathIdx _ hne _ _ _; exact absurd rfl hne
  | cons s rest ih =>
    intro t buf cur pathIdx hseg hne hbudget ht hdrop
    rcases rest with _ | ⟨s2, rest2⟩
    · rw [show joinTmpl [s] = s from rfl] at hdrop
      have hs : 123 ∉ s := hseg s (List.mem_cons_self _ _)
      rw [feLoop_skip ps format prm s hs _ buf cur cur pathIdx hdrop]
      exact feLoop_illegal ps format prm buf cur (cur + s.length) pathIdx t
        (drop_of_drop_append format cur s _ hdrop) ht
    · have hj : joinTmpl (s :: s2 :: rest2) ++ 123 :: t
          = s ++ 123 :: 125 :: (joinTmpl (s2 :: rest2) ++ 123 :: t) := by
        simp [joinTmpl, List.append_assoc]
      rw [hj] at hdrop
      have hs : 123 ∉ s := hseg s (List.mem_cons_self _ _)
      rw [feLoop_skip ps format prm s hs _ buf cur cur pathIdx hdrop]
      have hdrop2 : format.drop (cur + s.length)
          = 123 :: 125 :: (joinTmpl (s2 :: rest2) ++ 123 :: t) :=
        drop_of_drop_append format cur s _ hdrop
      have hprm : pathIdx < prm.length := by
        simp only [List.length_cons] at hbudget; omega
      rw [feLoop_placeholder ps format prm buf cur (cur + s.length) pathIdx _ hdrop2 hprm]
      have hdrop3 : format.drop (cur + s.length + 2) = joinTmpl (s2 :: rest2) ++ 123 :: t := by
        have h5 : format.drop (cur + s.length + 1) = 125 :: (joinTmpl (s2 :: rest2) ++ 123 :: t) :=
          (getD_of_drop 0 format (cur + s.length) 123 _ hdrop2).2.2
        exact (getD_of_drop 0 format (cur + s.length + 1) 125 _ h5).2.2
      exact ih t _ (cur + s.length + 2) (pathIdx + 1)
        (fun x hx => hseg x (List.mem_cons_of_mem s hx)) (by simp)
        (by simp only [List.length_cons] at hbudget ⊢; omega) ht hdrop3

/-- One rendered `key=value` pair: escaped key, `=`, escaped value
(specification-side). -/
def pairRender (k v : List Nat) : List Nat := escapeAll k ++ 61 :: escapeAll v

/-- All rendered pairs of a query map, in iteration order, each key
repeated once per value (specification-side). -/
def queryPairs : List (List Nat × List (List Nat)) → List (List Nat)
  | [] => []
  | (k, vs) :: rest => vs.map (pairRender k) ++ queryPairs rest

/-- Join byte strings with the `&` separator between consecutive entries
and never before the first (specification-side). -/
def joinAmp : List (List Nat) → List Nat
  | [] => []
  | [x] => x
  | x :: xs => x ++ 38 :: joinAmp xs

/-- Join byte strings where `first` says whether nothing has been emitted
yet: entries are prefixed by `&` except the first one when `first` holds. -/
def qRenderF : Bool → List (List Nat) → List Nat
  | _, [] => []
  | true, x :: t => x ++ qRenderF false t
  | false, x :: t => 38 :: (x ++ qRenderF false t)

theorem joinAmp_eq_qRenderF (xs : List (List Nat)) : joinAmp xs = qRenderF true xs := by
  induction xs with
  | nil => rfl
  | cons x t ih =>
    cases t with
    | nil => simp [joinAmp, qRenderF]
    | cons y t2 => simp [joinAmp, qRenderF, ih]

theorem qRenderF_append (a b : List (List Nat)) (first : Bool) :
    qRenderF first (a ++ b) = qRenderF first a ++ qRenderF (first && a.isEmpty) b := by
  induction a generalizing first with
  | nil => simp [qRenderF]
  | cons x t ih =>
    cases first
    · simp only [List.cons_append, qRenderF, List.append_eq]
      rw [ih false]
      simp [List.append_assoc]
    · simp only [List.cons_append, qRenderF, List.append_eq, List.isEmpty_cons, Bool.false_and]
      rw [ih false]
      simp [List.append_assoc]

theorem isEmpty_map {α β : Type} (f : α → β) (l : List α) :
    (l.map f).isEmpty = l.isEmpty := by
  cases l <;> simp

theorem isEmpty_append {α : Type} (a b : List α) :
    (a ++ b).isEmpty = (a.isEmpty && b.isEmpty) := by
  cases a <;> simp

theorem qInner_spec (ps : Nat) (k : List Nat) (hps : 0 < ps) :
    ∀ (vs : List (List Nat)) (b : buffer) (first : Bool),
      (qInner ps k vs (b, first)).1.contents
          = b.contents ++ qRenderF first (vs.map (pairRender k)) ∧
      (qInner ps k vs (b, first)).2 = (first && vs.isEmpty) := by
  intro vs
  induction vs with
  | nil => intro b first; simp [qInner, qRenderF]
  | cons v t ih =>
    intro b first
    have step : qInner ps k (v :: t) (b, first)
        = qInner ps k t
            (writeEscaped ps (writeByte ps (writeEscaped ps
              (if first then b else writeByte ps b 38) k) 61) v, false) := by
      simp [qInner]
    rw [step]
    obtain ⟨h1, h2⟩ := ih
      (writeEscaped ps (writeByte ps (writeEscaped ps
        (if first then b else writeByte ps b 38) k) 61) v) false
    constructor
    · rw [h1]
      rw [writeEscaped_contents _ _ _ hps, writeByte_contents, writeEscaped_contents _ _ _ hps]
      cases first
      · simp [qRenderF, pairRender, List.append_assoc]
      · simp [qRenderF, pairRender, List.append_assoc]
    · rw [h2]
      simp

theorem qLoop_spec (ps : Nat) (hps : 0 < ps) :
    ∀ (q : List (List Nat × List (List Nat))) (b : buffer) (first : Bool),
      (qLoop ps q (b, first)).1.contents = b.contents ++ qRenderF first (queryPairs q) ∧
      (qLoop ps q (b, first)).2 = (first && (queryPairs q).isEmpty) := by
  intro q
  induction q with
  | nil => intro b first; simp [qLoop, queryPairs, qRenderF]
  | cons kv rest ih =>
    intro b first
    have step : qLoop ps (kv :: rest) (b, first) = qLoop ps rest (qInner ps kv.1 kv.2 (b, first)) := by
      simp [qLoop]
    obtain ⟨h1, h2⟩ := qInner_spec ps kv.1 hps kv.2 b first
    rw [step]
    have hpair : qInner ps kv.1 kv.2 (b, first)
        = ((qInner ps kv.1 kv.2 (b, first)).1, (qInner ps kv.1 kv.2 (b, first)).2) := rfl
    rw [hpair, h2]
    obtain ⟨h3, h4⟩ := ih (qInner ps kv.1 kv.2 (b, first)).1 (first && kv.2.isEmpty)
    constructor
    · rw [h3, h1]
      have : queryPairs (kv :: rest) = kv.2.map (pairRender kv.1) ++ queryPairs rest := by
        cases kv; rfl
      rw [this, qRenderF_append, isEmpty_map]
      simp [List.append_assoc]
    · rw [h4]
      have : queryPairs (kv :: rest) = kv.2.map (pairRender kv.1) ++ queryPairs rest := by
        cases kv; rfl
      rw [this, isEmpty_append, isEmpty_map]
      simp [Bool.and_assoc]

/-- Full characterization of a successful `fmtEndpoint` run on a
well-formed template with exactly matching parameters: placeholders are
substituted in order and the escaped query pairs are appended after `?`,
joined by `&`. -/
theorem fmtEndpoint_render (ps : Nat) (segs prm : List (List Nat))
    (q : List (List Nat × List (List Nat)))
    (hps : 0 < ps) (hseg : ∀ s ∈ segs, 123 ∉ s) (hlen : segs.length = prm.length + 1) :
    fmtEndpoint ps (joinTmpl segs) q prm
      = Except.ok (renderPath segs prm
          ++ (if 0 < q.length then 63 :: joinAmp (queryPairs q) else [])) := by
  have hne : segs ≠ [] := by intro h; rw [h] at hlen; simp at hlen
  obtain ⟨bufOut, lstOut, h1, h2, h3⟩ := feLoop_scan_ok ps (joinTmpl segs) prm hps segs
    (newBuffer ⟨ps, []⟩) 0 0 hseg hne (by omega) (by simp)
  unfold fmtEndpoint
  rw [h1]
  have hpi : 0 + (segs.length - 1) = prm.length := by omega
  simp only [hpi, not_true, if_false, if_neg (not_not_intro rfl)]
  have hTrail : (if lstOut < (joinTmpl segs).length then
        writeString ps bufOut (((joinTmpl segs).drop lstOut).take ((joinTmpl segs).length - lstOut))
      else bufOut).contents = bufOut.contents ++ segs.getLastD [] := by
    by_cases hlast : lstOut < (joinTmpl segs).length
    · rw [if_pos hlast, writeString_contents _ _ _ hps]
      congr 1
      rw [h3]
      have : (joinTmpl segs).length - lstOut = (segs.getLastD []).length := by
        have := List.length_drop lstOut (joinTmpl segs)
        rw [h3] at this
        omega
      rw [this, List.take_length]
    · rw [if_neg hlast]
      have hempty : segs.getLastD [] = [] := by
        rw [← h3, List.drop_eq_nil_of_le (by omega)]
      rw [hempty, List.append_nil]
  have hRender : bufOut.contents ++ segs.getLastD [] = renderPath segs prm := by
    rw [h2]
    simp only [buffer.contents_newBuffer, List.nil_append, List.drop_zero]
    rw [renderPath_eq_renderInit segs prm hne (by omega)]
  by_cases hq : 0 < q.length
  · rw [if_pos hq]
    obtain ⟨hc, _⟩ := qLoop_spec ps hps q (writeByte ps (if lstOut < (joinTmpl segs).length then
        writeString ps bufOut (((joinTmpl segs).drop lstOut).take ((joinTmpl segs).length - lstOut))
      else bufOut) 63) true
    rw [if_pos hq]
    congr 1
    rw [buffer.build_nil_data, hc, writeByte_contents, hTrail, hRender]
    rw [joinAmp_eq_qRenderF]
    simp [List.append_assoc]
  · rw [if_neg hq, if_neg hq]
    congr 1
    rw [buffer.build_nil_data, hTrail, hRender, List.append_nil]

/-- ASCII byte string helper for concrete instances. -/
def strBytes (s : String) : List Nat := s.data.map Char.toNat

/-- C1: for every endpoint template with exactly N `{}` placeholders
(written as N+1 literal segments free of `{` joined by placeholders) and
every path-parameter list of length N, `fmtEndpoint` succeeds and returns
the template text with the i-th placeholder replaced by the
percent-escaped i-th path parameter, in order, with the trailing template
text appended. -/
theorem fmtEndpoint_success_substitutes (ps : Nat) (segs prm : List (List Nat))
    (hps : 0 < ps) (hseg : ∀ s ∈ segs, 123 ∉ s) (hlen : segs.length = prm.length + 1) :
    fmtEndpoint ps (joinTmpl segs) [] prm = Except.ok (renderPath segs prm) := by
  have h := fmtEndpoint_render ps segs prm [] hps hseg hlen
  simpa using h

theorem fmtEndpoint_success_substitutes_witness :
    0 < 8 ∧ (∀ s ∈ [strBytes "http://h/", strBytes "/y"], 123 ∉ s) ∧
    ([strBytes "http://h/", strBytes "/y"] : List (List Nat)).length
      = ([strBytes "a b"] : List (List Nat)).length + 1 ∧
    fmtEndpoint 8 (joinTmpl [strBytes "http://h/", strBytes "/y"]) [] [strBytes "a b"]
      = Except.ok (renderPath [strBytes "http://h/", strBytes "/y"] [strBytes "a b"]) ∧
    renderPath [strBytes "http://h/", strBytes "/y"] [strBytes "a b"]
      = strBytes "http://h/a%20b/y" :=
  ⟨by decide, by decide, by decide,
    fmtEndpoint_success_substitutes 8 [strBytes "http://h/", strBytes "/y"] [strBytes "a b"]
      (by decide) (by decide) (by decide),
    by decide⟩

/-- C3: on a well-formed template, a parameter shortfall yields the
not-enough-parameters error and a surplus yields the
too-many-parameters error; in both cases no result bytes are produced. -/
theorem fmtEndpoint_param_count_mismatch (ps : Nat) (segs prm : List (List Nat))
    (q : List (List Nat × List (List Nat)))
    (hps : 0 < ps) (hseg : ∀ s ∈ segs, 123 ∉ s) (hne : segs ≠ []) :
    (prm.length + 1 < segs.length →
      fmtEndpoint ps (joinTmpl segs) q prm = Except.error notEnoughErr) ∧
    (segs.length ≤ prm.length →
      fmtEndpoint ps (joinTmpl segs) q prm = Except.error tooManyErr) := by
  have hpos : 0 < segs.length := List.length_pos.mpr hne
  constructor
  · intro hlt
    unfold fmtEndpoint
    rw [feLoop_scan_notEnough ps (joinTmpl segs) prm segs (newBuffer ⟨ps, []⟩) 0 0 hseg
      (by omega) (by omega) (by simp)]
  · intro hle
    obtain ⟨bufOut, lstOut, h1, _, _⟩ := feLoop_scan_ok ps (joinTmpl segs) prm hps segs
      (newBuffer ⟨ps, []⟩) 0 0 hseg hne (by omega) (by simp)
    unfold fmtEndpoint
    rw [h1]
    have hne2 : ¬ (0 + (segs.length - 1) = prm.length) := by omega
    simp only [if_pos hne2]

theorem fmtEndpoint_param_count_mismatch_witness :
    (fmtEndpoint 8 (joinTmpl [strBytes "a/", strBytes "/b", []]) [] [strBytes "x"]
      = Except.error notEnoughErr) ∧
    (fmtEndpoint 8 (joinTmpl [strBytes "a/"]) [] [strBytes "x"]
      = Except.error tooManyErr) :=
  ⟨(fmtEndpoint_param_count_mismatch 8 [strBytes "a/", strBytes "/b", []] [strBytes "x"] []
      (by decide) (by decide) (by decide)).1 (by decide),
   (fmtEndpoint_param_count_mismatch 8 [strBytes "a/"] [strBytes "x"] []
      (by decide) (by decide) (by decide)).2 (by decide)⟩

/-- The endpoint-construction scan of `RequestBuilder.Build`
(src/unnamed/part_002 lines 791-811): `opn` is the open-brace flag,
`cursor` the copy cut point, `pidx` the path-parameter index, `i` the scan
position.  Go ranges over runes; brace bytes never occur inside multi-byte
runes, so the byte-level scan takes the same branches.  The subsequent
body/query/header assembly of `Build` is independent of this scan.  The
error value models `ErrInvalidFormat`. -/
def bsLoop (format : List Nat) (prm : List (List Nat)) :
    List Nat → Bool → Nat → Nat → Nat → Except Unit (List Nat) :=
  fun endp opn cursor pidx i =>
  if h : i < format.length then
    if (opn ∧ ¬ format.getD i 0 = 125) ∨ (¬ opn ∧ format.getD i 0 = 125) then
      Except.error ()
    else if format.getD i 0 = 123 ∧ pidx = prm.length then
      Except.error ()
    else if format.getD i 0 = 123 then
      bsLoop format prm endp true cursor pidx (i + 1)
    else if format.getD i 0 = 125 then
      bsLoop format prm
        (endp ++ (format.drop cursor).take (i - 1 - cursor) ++ prm.getD pidx [])
        false (i + 1) (pidx + 1) (i + 1)
    else bsLoop format prm endp opn cursor pidx (i + 1)
  else
    if opn ∨ ¬ pidx = prm.length then Except.error ()
    else Except.ok (endp ++ format.drop cursor)
termination_by _ _ _ _ i => format.length - i

/-- The endpoint construction of `RequestBuilder.Build`
(src/unnamed/part_002 lines 790-811), from the initial scan state. -/
def buildEndpoint (format : List Nat) (prm : List (List Nat)) : Except Unit (List Nat) :=
  bsLoop format prm [] false 0 0 0

/-- `Build`'s scan passes over a run of non-brace bytes unchanged. -/
theorem bsLoop_skip (format : List Nat) (prm : List (List Nat)) :
    ∀ (s : List Nat), 123 ∉ s → 125 ∉ s →
      ∀ t endp cursor pidx i, format.drop i = s ++ t →
      bsLoop format prm endp false cursor pidx i
        = bsLoop format prm endp false cursor pidx (i + s.length) := by
  intro s
  induction s with
  | nil => intro _ _ t endp cursor pidx i _; simp
  | cons c s2 ih =>
    intro hs1 hs2 t endp cursor pidx i h
    have hd : format.drop i = c :: (s2 ++ t) := by simpa using h
    obtain ⟨hget, hlt, hdrop⟩ := getD_of_drop 0 format i c (s2 ++ t) hd
    have hc1 : ¬ c = 123 := fun hc => hs1 (hc ▸ List.mem_cons_self c s2)
    have hc2 : ¬ c = 125 := fun hc => hs2 (hc ▸ List.mem_cons_self c s2)
    rw [bsLoop, dif_pos hlt]
    rw [if_neg (by rw [hget]; simp [hc2])]
    rw [if_neg (by rw [hget]; simp [hc1])]
    rw [if_neg (by rw [hget]; exact hc1), if_neg (by rw [hget]; exact hc2)]
    have harith : i + (c :: s2).length = i + 1 + s2.length := by
      simp only [List.length_cons]
      omega
    rw [harith, ih (fun hm => hs1 (List.mem_cons_of_mem c hm))
      (fun hm => hs2 (List.mem_cons_of_mem c hm)) t endp cursor pidx (i + 1) hdrop]

/-- `Build`'s scan rejects an unmatched `}` (after any brace-free prefix)
with `ErrInvalidFormat`, for every parameter list. -/
theorem buildEndpoint_unmatched_close (pre t : List Nat) (prm : List (List Nat))
    (h1 : 123 ∉ pre) (h2 : 125 ∉ pre) :
    buildEndpoint (pre ++ 125 :: t) prm = Except.error () := by
  unfold buildEndpoint
  rw [bsLoop_skip (pre ++ 125 :: t) prm pre h1 h2 (125 :: t) [] 0 0 0 (by simp)]
  have hd : (pre ++ 125 :: t).drop (0 + pre.length) = 125 :: t :=
    drop_of_drop_append (pre ++ 125 :: t) 0 pre (125 :: t) (by simp)
  obtain ⟨hget, hlt, _⟩ := getD_of_drop 0 (pre ++ 125 :: t) (0 + pre.length) 125 t hd
  rw [bsLoop, dif_pos hlt, if_pos (by rw [hget]; simp)]

/-- C2 (amended): in `fmtEndpoint`, a `{` that does not form a `{}` pair
(at end of template or followed by another byte) fails with the
illegal-format error, provided the preceding placeholders have enough
parameters; in `RequestBuilder.Build`'s scan, an unmatched `}` is rejected
with `ErrInvalidFormat`.  (An unmatched `}` in `fmtEndpoint` is not an
error: see the counterexample.) -/
theorem stray_brace_errors (ps : Nat) :
    (∀ (segs : List (List Nat)) (t : List Nat) (prm : List (List Nat))
        (q : List (List Nat × List (List Nat))),
      (∀ s ∈ segs, 123 ∉ s) → segs ≠ [] → segs.length - 1 ≤ prm.length →
      (t = [] ∨ ¬ t.getD 0 0 = 125) →
      fmtEndpoint ps (joinTmpl segs ++ 123 :: t) q prm = Except.error illegalFormatErr) ∧
    (∀ (pre t : List Nat) (prm : List (List Nat)),
      123 ∉ pre → 125 ∉ pre →
      buildEndpoint (pre ++ 125 :: t) prm = Except.error ()) := by
  constructor
  · intro segs t prm q hseg hne hbudget ht
    unfold fmtEndpoint
    rw [feLoop_scan_illegal ps (joinTmpl segs ++ 123 :: t) prm segs t
      (newBuffer ⟨ps, []⟩) 0 0 hseg hne (by omega) ht (by simp)]
  · exact fun pre t prm h1 h2 => buildEndpoint_unmatched_close pre t prm h1 h2

theorem stray_brace_errors_witness :
    (fmtEndpoint 8 (joinTmpl [strBytes "a/"] ++ 123 :: strBytes "x") [] []
      = Except.error illegalFormatErr) ∧
    (buildEndpoint (strBytes "a" ++ 125 :: strBytes "b") []
      = Except.error ()) :=
  ⟨(stray_brace_errors 8).1 [strBytes "a/"] (strBytes "x") [] []
      (by decide) (by decide) (by decide) (by decide),
   (stray_brace_errors 8).2 (strBytes "a") (strBytes "b") [] (by decide) (by decide)⟩

/-- C2 counterexample: `fmtEndpoint` on the template consisting of a
single unmatched `}` succeeds and copies the byte to the output, rather
than failing as the claim demands. -/
theorem fmtEndpoint_unmatched_close_ok :
    fmtEndpoint 8 [125] [] [] = Except.ok [125] ∧
    ∀ e, ¬ fmtEndpoint 8 [125] [] [] = Except.error e := by
  have h := fmtEndpoint_render 8 [[125]] [] [] (by decide) (by decide) (by decide)
  have h2 : fmtEndpoint 8 [125] [] [] = Except.ok [125] := by
    simpa [joinTmpl, renderPath] using h
  exact ⟨h2, fun e he => by rw [h2] at he; cases he⟩

/-- C4: at page size 4, on template `abcdef` with query pairs
`a=1` and `b=2`, the part_004 `fmtEndpoint` omits the `&` separator
between the pairs (the query section crosses a page boundary), while the
src/request.go `fmtEndpoint` emits it. -/
theorem fmtEndpointP4_missing_separator :
    fmtEndpointP4 4 (strBytes "abcdef")
        [(strBytes "a", [strBytes "1"]), (strBytes "b", [strBytes "2"])] []
      = Except.ok (strBytes "abcdef?a=1b=2") ∧
    fmtEndpoint 4 (strBytes "abcdef")
        [(strBytes "a", [strBytes "1"]), (strBytes "b", [strBytes "2"])] []
      = Except.ok (strBytes "abcdef?a=1&b=2") ∧
    ¬ strBytes "abcdef?a=1b=2" = strBytes "abcdef?a=1&b=2" := by
  refine ⟨?_, ?_, by decide⟩
  · unfold fmtEndpointP4
    rw [feLoop_stop 4 (strBytes "abcdef") [] (newBuffer ⟨4, []⟩) 0 0 0 (by decide)]
    rfl
  · unfold fmtEndpoint
    rw [feLoop_stop 4 (strBytes "abcdef") [] (newBuffer ⟨4, []⟩) 0 0 0 (by decide)]
    rfl

/-- A hexadecimal digit's value: decimal digits, then upper- and
lower-case letters (specification-side decoder). -/
def unhex (c : Nat) : Option Nat :=
  if 48 ≤ c ∧ c ≤ 57 then some (c - 48)
  else if 65 ≤ c ∧ c ≤ 70 then some (c - 55)
  else if 97 ≤ c ∧ c ≤ 102 then some (c - 87)
  else none

/-- Standard percent-decoding (specification-side): `%` must be followed
by two hex digits giving the byte value; all other bytes are literal. -/
def decodePercent : List Nat → Option (List Nat)
  | [] => some []
  | c :: rest =>
    if c = 37 then
      match rest with
      | h :: l :: rest2 =>
        match unhex h, unhex l, decodePercent rest2 with
        | some a, some b2, some r => some ((a * 16 + b2) :: r)
        | _, _, _ => none
      | _ => none
    else (decodePercent rest).map (c :: ·)

theorem decodePercent_cons_ne (c : Nat) (rest : List Nat) (hc : ¬ c = 37) :
    decodePercent (c :: rest) = (decodePercent rest).map (c :: ·) := by
  match rest with
  | [] => simp [decodePercent, hc]
  | [x] => simp [decodePercent, hc]
  | h :: l :: rest2 =>
    rw [decodePercent]
    rw [if_neg hc]

theorem decodePercent_esc (h l : Nat) (rest : List Nat) :
    decodePercent (37 :: h :: l :: rest)
      = match unhex h, unhex l, decodePercent rest with
        | some a, some b2, some r => some ((a * 16 + b2) :: r)
        | _, _, _ => none := by
  rw [decodePercent]
  rw [if_pos rfl]

theorem unhex_hexDigit (x : Nat) (h : x < 16) : unhex (hexDigit x) = some x := by
  interval_cases x <;> decide

theorem decodePercent_escapeAll (str : List Nat) (h : ∀ c ∈ str, c < 256) :
    decodePercent (escapeAll str) = some str := by
  induction str with
  | nil => rfl
  | cons c t ih =>
    have hc : c < 256 := h c (List.mem_cons_self c t)
    have iht := ih (fun x hx => h x (List.mem_cons_of_mem c hx))
    by_cases hesc : shouldEscape c
    · have he : escapeAll (c :: t)
          = 37 :: hexDigit (c / 16) :: hexDigit (c % 16) :: escapeAll t := by
        simp [escapeAll, hesc, escape]
      rw [he, decodePercent_esc]
      rw [unhex_hexDigit (c / 16) (by omega), unhex_hexDigit (c % 16) (by omega), iht]
      have harith : c / 16 * 16 + c % 16 = c := by omega
      show some ((c / 16 * 16 + c % 16) :: t) = some (c :: t)
      rw [harith]
    · have hc37 : ¬ c = 37 := by
        intro h37
        rw [h37] at hesc
        exact hesc (by decide)
      have he : escapeAll (c :: t) = c :: escapeAll t := by
        simp [escapeAll, hesc]
      rw [he, decodePercent_cons_ne c (escapeAll t) hc37, iht]
      rfl

/-- C5: `writeEscaped` writes unreserved bytes unchanged and every other
byte as its uppercase-hex `%XX` escape (byte-wise, this is `escapeAll`),
and percent-decoding the written output reproduces the original string
exactly. -/
theorem writeEscaped_roundTrip (ps : Nat) (b : buffer) (str : List Nat)
    (hps : 0 < ps) (hbytes : ∀ c ∈ str, c < 256) :
    (writeEscaped ps b str).contents = b.contents ++ escapeAll str ∧
    decodePercent (escapeAll str) = some str :=
  ⟨writeEscaped_contents ps b str hps, decodePercent_escapeAll str hbytes⟩

theorem writeEscaped_roundTrip_witness :
    (writeEscaped 3 (newBuffer ⟨3, []⟩) [0, 127, 32, 97]).contents
        = (newBuffer ⟨3, []⟩).contents ++ escapeAll [0, 127, 32, 97] ∧
    decodePercent (escapeAll [0, 127, 32, 97]) = some [0, 127, 32, 97] ∧
    escapeAll [0, 127, 32, 97] = strBytes "%00%7F%20a" :=
  ⟨(writeEscaped_roundTrip 3 (newBuffer ⟨3, []⟩) [0, 127, 32, 97] (by decide) (by decide)).1,
   (writeEscaped_roundTrip 3 (newBuffer ⟨3, []⟩) [0, 127, 32, 97] (by decide) (by decide)).2,
   by decide⟩

/-- C6: after any sequence of `add` calls on a fresh buffer, `len()`
equals the sum of the retired page lengths plus the current page length. -/
theorem buffer_len_invariant (init : Slice) (pages : List Slice) :
    (pages.foldl buffer.add (newBuffer init)).len
      = ((pages.foldl buffer.add (newBuffer init)).store.map (fun p => p.data.length)).sum
        + (pages.foldl buffer.add (newBuffer init)).page.data.length := by
  have key : ∀ (b : buffer), b.bytes = (b.store.map (fun p => p.data.length)).sum →
      (pages.foldl buffer.add b).bytes
        = ((pages.foldl buffer.add b).store.map (fun p => p.data.length)).sum := by
    induction pages with
    | nil => intro b hb; simpa using hb
    | cons p t ih =>
      intro b hb
      simp only [List.foldl_cons]
      exact ih (b.add p) (by simp [buffer.add, hb])
  rw [buffer.len, key (newBuffer init) (by simp [newBuffer])]

/-- C7 (amended): `build(dst)` appends into `dst` exactly when the spare
capacity of `dst` covers the total size, so the result bytes are `dst`'s
existing bytes followed by the concatenation of the retired pages and the
current page in that case, and exactly the concatenation (in a fresh
destination allocated with the total size) otherwise; in particular for
the `nil` destination used by every caller the result is exactly the
concatenation. -/
theorem build_result (b : buffer) (dst : Slice) :
    (b.build dst).data
      = (if b.len ≤ dst.cap - dst.data.length then dst.data else []) ++ b.contents ∧
    (b.build nilSlice).data = b.contents :=
  ⟨buffer.build_data b dst, buffer.build_nil_data b⟩

/-- C7 counterexample: with a non-empty destination that has enough spare
capacity, `build` returns the destination's old byte followed by the
buffer contents, not the bare concatenation the claim describes. -/
theorem build_keeps_destination_bytes :
    ((newBuffer ⟨4, [2]⟩).build ⟨10, [1]⟩).data = [1, 2] ∧
    ¬ ((newBuffer ⟨4, [2]⟩).build ⟨10, [1]⟩).data = (newBuffer ⟨4, [2]⟩).contents := by
  decide

/-- A command releases only pages of the configured capacity (the shape of
pages previously handed out by `Acquire`). -/
def relCapsOk (ps : Nat) : PoolCmd → Bool
  | PoolCmd.acq => true
  | PoolCmd.rel pgs => pgs.all (fun p => p.cap == ps)

theorem acquire_of_inv (m : MemPool) (hinv : PoolInv m) :
    (m.Acquire).1.data = [] ∧ (m.Acquire).1.cap = m.pageSize ∧ PoolInv (m.Acquire).2 ∧
    (m.Acquire).2.pageSize = m.pageSize ∧ (m.Acquire).2.poolCap = m.poolCap := by
  obtain ⟨hlen, hmem⟩ := hinv
  unfold MemPool.Acquire
  match hp : m.pool with
  | [] => exact ⟨rfl, rfl, ⟨hlen, hmem⟩, rfl, rfl⟩
  | p :: rest =>
    obtain ⟨hd, hc⟩ := hmem p (by rw [hp]; exact List.mem_cons_self p rest)
    refine ⟨hd, hc, ⟨?_, ?_⟩, rfl, rfl⟩
    · rw [hp] at hlen
      simp at hlen ⊢
      omega
    · intro x hx
      exact hmem x (by rw [hp]; exact List.mem_cons_of_mem p hx)

theorem release_preserves_inv (m : MemPool) (pgs : List Slice) (hinv : PoolInv m)
    (hcaps : ∀ p ∈ pgs, p.cap = m.pageSize) :
    PoolInv (m.Release pgs) ∧ (m.Release pgs).pageSize = m.pageSize ∧
    (m.Release pgs).poolCap = m.poolCap := by
  unfold MemPool.Release
  induction pgs generalizing m with
  | nil => exact ⟨hinv, rfl, rfl⟩
  | cons p t ih =>
    simp only [List.foldl_cons]
    by_cases hroom : m.pool.length < m.poolCap
    · rw [if_pos hroom]
      have hinv2 : PoolInv { m with pool := m.pool ++ [⟨p.cap, []⟩] } := by
        constructor
        · simp
          omega
        · intro x hx
          simp at hx
          rcases hx with hx | hx
          · exact hinv.2 x hx
          · rw [hx]
            exact ⟨rfl, hcaps p (List.mem_cons_self p t)⟩
      exact ih { m with pool := m.pool ++ [⟨p.cap, []⟩] } hinv2
        (fun x hx => hcaps x (List.mem_cons_of_mem p hx))
    · rw [if_neg hroom]
      exact ih m hinv (fun x hx => hcaps x (List.mem_cons_of_mem p hx))

theorem runPool_preserves_inv (cs : List PoolCmd) (ps : Nat) :
    ∀ (m : MemPool), m.pageSize = ps → PoolInv m → (∀ c ∈ cs, relCapsOk ps c = true) →
      PoolInv (runPool m cs) ∧ (runPool m cs).pageSize = ps := by
  induction cs with
  | nil => intro m hps hinv _; exact ⟨hinv, hps⟩
  | cons c t ih =>
    intro m hps hinv hok
    match c with
    | PoolCmd.acq =>
      obtain ⟨_, _, hinv2, hps2, _⟩ := acquire_of_inv m hinv
      exact ih (m.Acquire).2 (by rw [hps2, hps]) hinv2
        (fun x hx => hok x (List.mem_cons_of_mem _ hx))
    | PoolCmd.rel pgs =>
      have hcaps : ∀ p ∈ pgs, p.cap = m.pageSize := by
        intro p hp
        have := hok (PoolCmd.rel pgs) (List.mem_cons_self _ _)
        simp [relCapsOk, List.all_eq_true] at this
        rw [hps]
        exact this p hp
      obtain ⟨hinv2, hps2, _⟩ := release_preserves_inv m pgs hinv hcaps
      exact ih (m.Release pgs) (by rw [hps2, hps]) hinv2
        (fun x hx => hok x (List.mem_cons_of_mem _ hx))

/-- C8: starting from a fresh pool, along any interleaving of `Acquire`
and `Release` calls that releases only configured-capacity pages, the pool
invariant holds (pool occupancy never exceeds the configured size and
every pooled page has been truncated to length zero with the configured
capacity), and any `Acquire` yields a page of length zero and the
configured capacity. -/
theorem memPool_invariant (ps sz : Nat) (cs : List PoolCmd)
    (hok : ∀ c ∈ cs, relCapsOk ps c = true) :
    PoolInv (runPool (NewMemPool ps sz) cs) ∧
    (runPool (NewMemPool ps sz) cs).Acquire.1.data = [] ∧
    (runPool (NewMemPool ps sz) cs).Acquire.1.cap = ps := by
  obtain ⟨hinv, hps⟩ := runPool_preserves_inv cs ps (NewMemPool ps sz) rfl
    (by constructor <;> simp [NewMemPool]) hok
  obtain ⟨hd, hc, _, _, _⟩ := acquire_of_inv _ hinv
  exact ⟨hinv, hd, by rw [hc, hps]⟩

theorem memPool_invariant_witness :
    (∀ c ∈ [PoolCmd.acq, PoolCmd.rel [⟨8, [1, 2, 3]⟩], PoolCmd.rel [⟨8, []⟩, ⟨8, [4]⟩]],
      relCapsOk 8 c = true) ∧
    (PoolInv (runPool (NewMemPool 8 1)
        [PoolCmd.acq, PoolCmd.rel [⟨8, [1, 2, 3]⟩], PoolCmd.rel [⟨8, []⟩, ⟨8, [4]⟩]]) ∧
      (runPool (NewMemPool 8 1)
        [PoolCmd.acq, PoolCmd.rel [⟨8, [1, 2, 3]⟩], PoolCmd.rel [⟨8, []⟩, ⟨8, [4]⟩]]).Acquire.1.data
          = [] ∧
      (runPool (NewMemPool 8 1)
        [PoolCmd.acq, PoolCmd.rel [⟨8, [1, 2, 3]⟩], PoolCmd.rel [⟨8, []⟩, ⟨8, [4]⟩]]).Acquire.1.cap
          = 8) :=
  ⟨by decide,
   memPool_invariant 8 1
     [PoolCmd.acq, PoolCmd.rel [⟨8, [1, 2, 3]⟩], PoolCmd.rel [⟨8, []⟩, ⟨8, [4]⟩]] (by decide)⟩

/-- An HTTP response as observed by the retrier: only the status code is
inspected. -/
structure Response where
  statusCode : Int
deriving Repr, DecidableEq

/-- `retrier` (src/unnamed/part_015): the embedded `sr.Retrier` only
drives the retry loop and delays (external timing machinery); the decision
state is the optional status-code allowlist. -/
structure retrier where
  retryCodes : List Int
deriving Repr, DecidableEq

set_option linter.unusedVariables false in
/-- `NewBasicRetrier` (src/unnamed/part_015 lines 22-29): no status-code
allowlist; `max` and `delayf` configure only the external retry loop. -/
def NewBasicRetrier (max : Int) (delayf : Int → Int) : retrier :=
  { retryCodes := [] }

set_option linter.unusedVariables false in
/-- `NewStatusCodeRetrier` (src/unnamed/part_015 lines 34-43). -/
def NewStatusCodeRetrier (max : Int) (delayf : Int → Int) (retryCodes : List Int) : retrier :=
  { retryCodes := retryCodes }

/-- `retrier.ShouldRetry` (src/unnamed/part_015 lines 57-79).  A non-nil
error is always retried with that error; a status above 299 produces the
descriptive error and is retried exactly when the status is in the
allowlist; otherwise no error and no retry.  (A nil error together with a
nil response dereferences nil in Go and is outside the model.) -/
def retrier.ShouldRetry (r : retrier) (res : Response) (err : Option String) :
    Option String × Bool :=
  match err with
  | some e => (some e, true)
  | none =>
    if 299 < res.statusCode then
      let e := "request failed with status code " ++ toString res.statusCode
      if r.retryCodes.contains res.statusCode then (some e, true) else (some e, false)
    else (none, false)

/-- C9: `ShouldRetry` signals retry with the given error whenever the
error is non-nil; on a nil error with status above 299 it returns the
descriptive status error and is retry-eligible exactly when the status is
in the configured allowlist (so the basic retrier, whose allowlist is
empty, never retries on status alone); and on a status of at most 299 it
returns no error and no retry. -/
theorem shouldRetry_decision (r : retrier) (res : Response) :
    (∀ e, r.ShouldRetry res (some e) = (some e, true)) ∧
    (299 < res.statusCode →
      r.ShouldRetry res none
        = (some ("request failed with status code " ++ toString res.statusCode),
           r.retryCodes.contains res.statusCode)) ∧
    (res.statusCode ≤ 299 → r.ShouldRetry res none = (none, false)) ∧
    (∀ max delayf, 299 < res.statusCode →
      ((NewBasicRetrier max delayf).ShouldRetry res none).2 = false) := by
  refine ⟨fun e => rfl, ?_, ?_, ?_⟩
  · intro hgt
    unfold retrier.ShouldRetry
    rw [if_pos hgt]
    by_cases hc : r.retryCodes.contains res.statusCode
    · rw [if_pos hc, hc]
    · rw [if_neg hc]
      simp at hc
      simp [hc]
  · intro hle
    unfold retrier.ShouldRetry
    rw [if_neg (by omega)]
  · intro max delayf hgt
    unfold retrier.ShouldRetry NewBasicRetrier
    rw [if_pos hgt]
    simp [List.contains]

theorem shouldRetry_decision_witness :
    ((retrier.mk [500]).ShouldRetry ⟨500⟩ (some "boom") = (some "boom", true)) ∧
    ((retrier.mk [500]).ShouldRetry ⟨500⟩ none
      = (some "request failed with status code 500", true)) ∧
    ((retrier.mk [500]).ShouldRetry ⟨404⟩ none
      = (some "request failed with status code 404", false)) ∧
    ((retrier.mk []).ShouldRetry ⟨201⟩ none = (none, false)) ∧
    (((NewBasicRetrier 3 (fun _ => 10)).ShouldRetry ⟨500⟩ none).2 = false) := by
  refine ⟨(shouldRetry_decision (retrier.mk [500]) ⟨500⟩).1 "boom", ?_, ?_, ?_, ?_⟩
  · rw [(shouldRetry_decision (retrier.mk [500]) ⟨500⟩).2.1 (by decide)]
    rfl
  · rw [(shouldRetry_decision (retrier.mk [500]) ⟨404⟩).2.1 (by decide)]
    rfl
  · exact (shouldRetry_decision (retrier.mk []) ⟨201⟩).2.2.1 (by decide)
  · exact (shouldRetry_decision (retrier.mk []) ⟨500⟩).2.2.2 3 (fun _ => 10) (by decide)

/-- `Request` as used by the prepare stage of src/unnamed/part_004: call
inputs, output slots and the error accumulator.  `nextInvoked` models
whether `Next()` (the middleware-cursor advance) was called.  The body is
an arbitrary type `α`; a marshaler maps it to encoded bytes plus a
content type or an error. -/
structure Req (α : Type) where
  format : List Nat
  queryParams : List (List Nat × List (List Nat))
  pathParams : List (List Nat)
  body : Option α
  marshaler : Option (α → Except String (List Nat × String))
  headers : List (String × String)
  endpoint : Option (List Nat)
  data : Option (List Nat)
  response : Option Response
  errors : List String
  nextInvoked : Bool

/-- `Request.Error` (src/unnamed/part_004 lines 77-79). -/
def Req.Error {α : Type} (r : Req α) (e : String) : Req α :=
  { r with errors := r.errors ++ [e] }

/-- `Request.Next` (src/unnamed/part_004 lines 69-74), modelled as a flag
recording that the next pipeline stage was invoked. -/
def Req.Next {α : Type} (r : Req α) : Req α :=
  { r with nextInvoked := true }

/-- `prepare` (src/unnamed/part_004 lines 88-119): format the endpoint
(on failure record the error and stop); marshal the body if present (a
present body with a nil marshaler records "marshaller is nil" and stops;
a marshal failure records that error and stops; a marshaler-supplied
content type is stored only when no Content-Type header exists); then
invoke the next stage.  `ps` is the page size of the request's memory
pool. -/
def prepare {α : Type} (ps : Nat) (r : Req α) : Req α :=
  match fmtEndpointP4 ps r.format r.queryParams r.pathParams with
  | Except.error err => ({ r with endpoint := none }).Error err
  | Except.ok endp =>
    let r := { r with endpoint := some endp }
    match r.body with
    | some bd =>
      match r.marshaler with
      | some m =>
        match m bd with
        | Except.error err => ({ r with data := none }).Error err
        | Except.ok (dat, ctype) =>
          let r := { r with data := some dat }
          let r := if (r.headers.find? (fun kv => kv.1 == "Content-Type")).isSome then r
            else { r with headers := r.headers ++ [("Content-Type", ctype)] }
          r.Next
      | none => r.Error "marshaller is nil"
    | none => r.Next

/-- C10 (amended): for a request whose endpoint template formats
successfully, whose body is present and whose marshaler is nil, the
prepare stage records exactly the error "marshaller is nil" (note the
spelling in src/unnamed/part_004 line 113), does not invoke the next
stage, and leaves the encoded data and the response unset. -/
theorem prepare_nil_marshaler {α : Type} (ps : Nat) (r : Req α)
    (hbody : r.body.isSome = true) (hm : r.marshaler = none)
    (hfmt : ∃ endp, fmtEndpointP4 ps r.format r.queryParams r.pathParams = Except.ok endp)
    (herr : r.errors = []) (hdata : r.data = none) (hresp : r.response = none)
    (hnext : r.nextInvoked = false) :
    (prepare ps r).errors = ["marshaller is nil"] ∧
    (prepare ps r).nextInvoked = false ∧
    (prepare ps r).data = none ∧
    (prepare ps r).response = none := by
  obtain ⟨endp, hres⟩ := hfmt
  obtain ⟨bd, hbd⟩ := Option.isSome_iff_exists.mp hbody
  unfold prepare
  rw [hres]
  simp only [hbd, hm]
  simp [Req.Error, herr, hdata, hresp, hnext]

theorem fmtEndpointP4_empty : fmtEndpointP4 256 [] [] [] = Except.ok [] := by
  unfold fmtEndpointP4
  rw [feLoop_stop 256 [] [] (newBuffer ⟨256, []⟩) 0 0 0 (by decide)]
  rfl

theorem prepare_nil_marshaler_witness :
    (prepare 256 (Req.mk (α := Unit) [] [] [] (some ()) none [] none none none [] false)).errors
        = ["marshaller is nil"] ∧
    (prepare 256 (Req.mk (α := Unit) [] [] [] (some ()) none [] none none none [] false)).nextInvoked
        = false ∧
    (prepare 256 (Req.mk (α := Unit) [] [] [] (some ()) none [] none none none [] false)).data
        = none ∧
    (prepare 256 (Req.mk (α := Unit) [] [] [] (some ()) none [] none none none [] false)).response
        = none :=
  prepare_nil_marshaler 256 (Req.mk [] [] [] (some ()) none [] none none none [] false)
    rfl rfl ⟨[], fmtEndpointP4_empty⟩ rfl rfl rfl rfl

/-- C10 counterexample: the error actually recorded is spelled
"marshaller is nil", not "marshaler is nil" as the claim states. -/
theorem prepare_error_spelling :
    (prepare 256 (Req.mk (α := Unit) [] [] [] (some ()) none [] none none none [] false)).errors
        = ["marshaller is nil"] ∧
    ¬ (prepare 256 (Req.mk (α := Unit) [] [] [] (some ()) none [] none none none [] false)).errors
        = ["marshaler is nil"] := by
  have h : (prepare 256 (Req.mk (α := Unit) [] [] [] (some ()) none [] none none none [] false)).errors
      = ["marshaller is nil"] := by
    unfold prepare
    rw [fmtEndpointP4_empty]
    rfl
  refine ⟨h, ?_⟩
  rw [h]
  decide
